import Mathlib

/-!
Shallow embedding of the `little_scheme` managed-heap core
(`src/memory/aux.rs`, `src/memory/header.rs`, `src/data.rs`, `src/heap.rs`)
and proofs about the specification's claims.

Modelling conventions:
* The byte buffer is a total function `Nat → Nat`; every value actually stored
  is a `u8` (< 256).  Out-of-range accesses (a Rust panic) are outside the
  scope of the claims, which quantify over in-range addresses.
* `usize` is `Nat`; the host word width `W = 8` bytes, as in the repository's
  own tests.  `isize` casts are two's complement at width `8*W`.
* Rust loops/recursion that are not structurally terminating (the chain walk
  in `alloc_bytes`, `mark`'s work list, `sweep`) take a fuel parameter and
  return `none` when the fuel runs out; a result of `none` for *every* fuel is
  how nontermination of the source loop is expressed.
* Rust panics (`Tag::from` on an unknown byte, the `Box` arm of
  `SchemeObj::read`, the out-of-memory panic) are explicit error results.
* `Heap.log` is a ghost field recording every address passed to `write`, in
  order.  It does not influence any computation; it exists so that "the bytes
  written by an operation" is a stated, provable quantity.
-/

set_option maxRecDepth 4000

namespace LScheme

/-- Machine word width in bytes: `std::mem::size_of::<usize>()` on the 8-byte
host assumed throughout the repository's tests. -/
def W : Nat := 8

/-- Serialized size of a block header (`Header::size` in `memory/header.rs`):
`next` word, `size` word, flag byte. -/
def headerSize : Nat := W + W + 1

/-- The heap state (`Heap` in `heap.rs`): the byte buffer `space` (modelled as
a total byte function), its length `len` (= `space.len()`), and the ghost
write log. The root oracle `get_roots` is passed separately to the functions
that use it. -/
structure Heap where
  space : Nat → Nat
  len : Nat
  log : List Nat

/-- Read a byte: `Heap::read` (`self.space[addr]`). -/
def hRead (h : Heap) (addr : Nat) : Nat := h.space addr

/-- Write a byte: `Heap::write` (`self.space[addr] = datum`), plus the ghost
log entry. -/
def hWrite (h : Heap) (addr byte : Nat) : Heap :=
  { h with space := fun x => if x = addr then byte else h.space x,
           log := h.log ++ [addr] }

/-- Loop body accumulator of `usize::write` (`memory/aux.rs`): after `count`
iterations, bytes `(v >> (i*8)) & 0xFF` have been stored at `addr + i` for
`i < count`. -/
def usizeWriteAux (v : Nat) (addr : Nat) (h : Heap) : Nat → Heap
  | 0 => h
  | k + 1 => hWrite (usizeWriteAux v addr h k) (addr + k) ((v >>> (k * 8)) &&& 255)

/-- Little-endian word encode, `impl MemWrite for usize` (`memory/aux.rs`). -/
def usizeWriteH (v : Nat) (h : Heap) (addr : Nat) : Heap :=
  usizeWriteAux v addr h W

/-- Loop accumulator of `usize::read` (`memory/aux.rs`): `out |= byte << (i*8)`
for `i < count`. -/
def usizeReadAux (h : Heap) (addr : Nat) : Nat → Nat
  | 0 => 0
  | k + 1 => usizeReadAux h addr k ||| ((hRead h (addr + k)) <<< (k * 8))

/-- Little-endian word decode, `impl MemRead for usize` (`memory/aux.rs`). -/
def usizeReadH (h : Heap) (addr : Nat) : Nat :=
  usizeReadAux h addr W

/-- Block header (`Header` in `memory/header.rs`). -/
structure Header where
  next : Nat
  size : Nat
  allocd : Bool
  marked : Bool
deriving DecidableEq

/-- Header decode, `impl MemRead for Header`: `next` word at `addr`, `size`
word at `addr + W`, flag byte at `addr + 2*W` with `allocd` at bit 7 and
`marked` at bit 6. -/
def headerRead (h : Heap) (addr : Nat) : Header :=
  let next := usizeReadH h addr
  let size := usizeReadH h (addr + W)
  let flags := hRead h (addr + 2 * W)
  { next := next, size := size,
    allocd := decide (0 < flags &&& 128),
    marked := decide (0 < flags &&& 64) }

/-- Header encode, `impl MemWrite for Header`. -/
def headerWriteH (hd : Header) (h : Heap) (addr : Nat) : Heap :=
  let h1 := usizeWriteH hd.next h addr
  let h2 := usizeWriteH hd.size h1 (addr + W)
  hWrite h2 (addr + 2 * W) ((if hd.allocd then 128 else 0) ||| (if hd.marked then 64 else 0))

/-- The dynamic object universe (`SchemeObj` in `data.rs`). -/
inductive SchemeObj where
  | nil
  | bool (b : Bool)
  | number (n : Int)
  | symbol (i : Nat)
  | pair (car cdr : SchemeObj)
deriving DecidableEq

/-- Serialized size query, `SchemeObj::size`: `1 + W` for every non-pair
variant, `1 + 2*(1 + W)` for a pair. -/
def SchemeObj.size : SchemeObj → Nat
  | .nil | .bool _ | .number _ | .symbol _ => 1 + W
  | .pair _ _ => 1 + 2 * (1 + W)

/-- Serialized size of a boxed child slot, `Box::<SchemeObj>::size`. -/
def boxSize : Nat := 1 + W

/-- The cast `n as usize` on the value of an `isize` (two's complement). -/
def isizeAsUsize (n : Int) : Nat := (n % ((2 : Int) ^ (8 * W))).toNat

/-- The cast `v as isize` on the value of a `usize` (two's complement). -/
def usizeAsIsize (v : Nat) : Int :=
  if v < 2 ^ (8 * W - 1) then (v : Int) else (v : Int) - 2 ^ (8 * W)

/-- Tag bytes, `impl From<Tag> for u8` (`data.rs`): Box 0, Nil 1, Bool 2,
Number 3, Symbol 4, Pair 5.  `Tag::from` on a byte accepts exactly `0..=5`
and panics otherwise; `none` models that panic. -/
def tagOfByte (b : Nat) : Option Nat :=
  if b ≤ 5 then some b else none

/-- Child-pointer enumeration, `children` in `heap.rs`: for a Pair payload,
one entry per child slot whose tag byte is `Box` (via `Tag::from`, which can
panic on garbage, hence `Option`).  `prim_size = SchemeObj::Nil.size() = 1+W`;
the slots inspected are at `parent+1` and `parent+1+(1+W)`. -/
def childrenF (h : Heap) (parentAddr : Nat) : Option (List Nat) :=
  match tagOfByte (hRead h parentAddr) with
  | none => none
  | some 5 =>
    let carAddr := parentAddr + 1
    let cdrAddr := parentAddr + 1 + (1 + W)
    match tagOfByte (hRead h carAddr), tagOfByte (hRead h cdrAddr) with
    | some tc, some td =>
      some ((if tc = 0 then [usizeReadH h (carAddr + 1)] else []) ++
            (if td = 0 then [usizeReadH h (cdrAddr + 1)] else []))
    | _, _ => none
  | some _ => some []

/-- Claim policy, `Heap::alloc_block`: set `allocd`; if the block also has
room for a residue header, split, computing the residue address with the
source's modular expression `(header.next + space.len() - residue_size) %
space.len()` and writing the residue header there.  Returns the heap (with
the residue header written, in the split case) and the updated header, which
the caller persists. -/
def allocBlock (h : Heap) (hdr : Header) (n : Nat) : Heap × Header :=
  let hdr1 := { hdr with allocd := true }
  if n + headerSize ≤ hdr1.size then
    let residueSize := hdr1.size - n
    let residueAddr := (hdr1.next + h.len - residueSize) % h.len
    let residueHeader : Header := ⟨hdr1.next, residueSize - headerSize, false, false⟩
    let hdr2 := { hdr1 with size := n, next := residueAddr }
    (headerWriteH residueHeader h residueAddr, hdr2)
  else (h, hdr1)

/-- Work-list loop of `Heap::mark`.  The Rust `Vec` pops from its end and
appends children at its end; the list here holds the `Vec` reversed (head =
top of stack), so popping is pattern matching and `append(children)` is
`children.reverse ++ rest`.  Fuel bounds the number of iterations; `none`
models either running out of fuel or a `Tag::from` panic inside `children`. -/
def markF : Nat → Heap → List Nat → Option Heap
  | 0, _, _ => none
  | _ + 1, h, [] => some h
  | fuel + 1, h, rootAddr :: rest =>
    let headerAddr := rootAddr - headerSize
    let hdr := headerRead h headerAddr
    if hdr.marked then markF fuel h rest
    else
      let h2 := headerWriteH { hdr with marked := true } h headerAddr
      match childrenF h2 rootAddr with
      | none => none
      | some cs => markF fuel h2 (cs.reverse ++ rest)

/-- Inner coalescing loop of `Heap::sweep`: starting from `header.next`,
repeatedly read the header at `next` and, while it is unmarked, advance to
its `next`.  Returns the first marked header's address.  The source has no
`next == 0` guard; the loop only does reads, so fuel exhaustion (`none`)
models its nontermination. -/
def sweepInner : Nat → Heap → Nat → Option Nat
  | 0, _, _ => none
  | fuel + 1, h, next =>
    let nh := headerRead h next
    if nh.marked then some next else sweepInner fuel h nh.next

/-- Outer loop of `Heap::sweep`: for an unmarked block, free it and absorb the
following unmarked blocks by redirecting `next` (the `size` field is not
touched); in all cases clear `marked`, persist the header, and continue at the
updated `next`, stopping at the sentinel `0`. -/
def sweepF : Nat → Heap → Nat → Option Heap
  | 0, _, _ => none
  | fuel + 1, h, headerAddr =>
    let hdr := headerRead h headerAddr
    let step : Option Header :=
      if hdr.marked then some hdr
      else
        match sweepInner (fuel + 1) h hdr.next with
        | none => none
        | some nx => some { hdr with allocd := false, next := nx }
    match step with
    | none => none
    | some hdr1 =>
      let hdr2 := { hdr1 with marked := false }
      let h2 := headerWriteH hdr2 h headerAddr
      if hdr2.next = 0 then some h2 else sweepF fuel h2 hdr2.next

/-- The collector, `Heap::collect`: mark then sweep, with `roots` the list
returned by the root oracle (`(*self.get_roots)()`). -/
def collectF (fuel : Nat) (roots : List Nat) (h : Heap) : Option Heap :=
  match markF fuel h roots.reverse with
  | none => none
  | some h2 => sweepF fuel h2 0

/-- First-fit walk of `Heap::alloc_bytes`, starting at `headerAddr` (the Rust
code always starts at 0; the recursion keeps the current position).  On a free
block of sufficient size: claim it (`alloc_block`), persist the header, and
return `header_addr + headerSize`.  At the sentinel with `attempt_collect`
set: collect once and retry from address 0 with `attempt_collect = false`; at
the sentinel otherwise: the out-of-memory panic, modelled as `some (h, none)`.
`none` is fuel exhaustion. -/
def allocBytesF (roots : List Nat) : Nat → Heap → Nat → Nat → Bool → Option (Heap × Option Nat)
  | 0, _, _, _, _ => none
  | fuel + 1, h, n, headerAddr, attempt =>
    let hdr := headerRead h headerAddr
    if hdr.allocd = false ∧ n ≤ hdr.size then
      let p := allocBlock h hdr n
      let h3 := headerWriteH p.2 p.1 headerAddr
      some (h3, some (headerAddr + headerSize))
    else if hdr.next = 0 then
      if attempt then
        match collectF fuel roots h with
        | none => none
        | some h2 => allocBytesF roots fuel h2 n 0 false
      else some (h, none)
    else allocBytesF roots fuel h n hdr.next attempt

/-- `Mem::alloc` for `Heap`: allocate `obj.size()` bytes (note: the object's
bytes themselves are *not* written by `alloc`).  Collapses both the
out-of-memory panic and fuel exhaustion to `none`. -/
def allocObjF (fuel : Nat) (roots : List Nat) (h : Heap) (obj : SchemeObj) : Option (Heap × Nat) :=
  match allocBytesF roots fuel h obj.size 0 true with
  | some (h2, some a) => some (h2, a)
  | _ => none

/-- Boxed-child encode, `impl MemWrite for Box<SchemeObj>` (`data.rs`): write
the `Box` tag at `addr`, allocate space for the full child object (whatever
its variant), and write the returned payload address at `addr + 1`. -/
def writeBoxF (fuel : Nat) (roots : List Nat) (obj : SchemeObj) (h : Heap) (addr : Nat) :
    Option Heap :=
  let h1 := hWrite h addr 0
  match allocObjF fuel roots h1 obj with
  | none => none
  | some (h2, objAddr) => some (usizeWriteH objAddr h2 (addr + 1))

/-- Object encode, `impl MemWrite for SchemeObj` (`data.rs`).  Primitives:
tag byte, then the value word (`Nil` writes only the tag).  Pair: the Pair
tag at `addr`, then `car.write(mem, addr + 1)` and
`cdr.write(mem, addr + 1 + size_of::<usize>())` — both children are
`Box<SchemeObj>`, so Rust method resolution selects `Box`'s `MemWrite`
implementation for them, and the cdr offset is `1 + W`, not `1 + (1+W)`. -/
def writeObjF (fuel : Nat) (roots : List Nat) : SchemeObj → Heap → Nat → Option Heap
  | .nil, h, addr => some (hWrite h addr 1)
  | .bool b, h, addr =>
    some (usizeWriteH (if b then 1 else 0) (hWrite h addr 2) (addr + 1))
  | .number n, h, addr =>
    some (usizeWriteH (isizeAsUsize n) (hWrite h addr 3) (addr + 1))
  | .symbol i, h, addr =>
    some (usizeWriteH i (hWrite h addr 4) (addr + 1))
  | .pair car cdr, h, addr =>
    let h1 := hWrite h addr 5
    match writeBoxF fuel roots car h1 (addr + 1) with
    | none => none
    | some h2 => writeBoxF fuel roots cdr h2 (addr + 1 + W)

/-- Error outcomes of `SchemeObj::read`: the `Tag::from` panic on a byte
outside `0..=5`, the explicit panic on a top-level `Box` tag, and fuel
exhaustion of the (unbounded) recursion. -/
inductive ReadErr where
  | unknownTag (byte addr : Nat)
  | boxAtTop (addr : Nat)
  | noFuel
deriving DecidableEq

/-- Object decode, `impl MemRead for SchemeObj` (`data.rs`).  In the Pair arm
the children are read with `Box::<SchemeObj>::read`, which is
`Box::new(SchemeObj::read(mem, slot_addr + 1))` — it does *not* dereference a
stored address — and the cdr slot address is `addr + 1 + car.size()` with
`car.size() = boxSize = 1 + W`. -/
def readObjF : Nat → Heap → Nat → Except ReadErr SchemeObj
  | 0, _, _ => .error .noFuel
  | fuel + 1, h, addr =>
    let tag := hRead h addr
    if tag = 0 then .error (.boxAtTop addr)
    else if tag = 1 then .ok .nil
    else if tag = 2 then .ok (.bool (if hRead h (addr + 1) = 0 then false else true))
    else if tag = 3 then .ok (.number (usizeAsIsize (usizeReadH h (addr + 1))))
    else if tag = 4 then .ok (.symbol (usizeReadH h (addr + 1)))
    else if tag = 5 then
      match readObjF fuel h (addr + 1 + 1) with
      | .error e => .error e
      | .ok car =>
        match readObjF fuel h (addr + 1 + boxSize + 1) with
        | .error e => .error e
        | .ok cdr => .ok (.pair car cdr)
    else .error (.unknownTag tag addr)

/-- Heap construction, `Heap::new`: zero the buffer, then install the single
header `{next = 0, size = size - headerSize, allocd = false}` at address 0. -/
def freshHeap (size : Nat) : Heap :=
  headerWriteH ⟨0, size - headerSize, false, false⟩ ⟨fun _ => 0, size, []⟩ 0

/-- Addresses of the chain blocks reachable from `addr` by following `next`
until the sentinel `0` (or until the fuel runs out). -/
def chainAddrs (fuel : Nat) (h : Heap) (addr : Nat) : List Nat :=
  match fuel with
  | 0 => []
  | fuel + 1 =>
    addr ::
      (let hd := headerRead h addr
       if hd.next = 0 then [] else chainAddrs fuel h hd.next)

/-- Sum of `headerSize + size` over the chain blocks (§3.2 coverage
invariant's left-hand side). -/
def chainSum (fuel : Nat) (h : Heap) (addr : Nat) : Nat :=
  ((chainAddrs fuel h addr).map (fun a => headerSize + (headerRead h a).size)).sum

/-- The ghost write log of an optional heap result (empty when the operation
failed), used to state which bytes an operation wrote. -/
def writeLogOf (r : Option Heap) : List Nat :=
  match r with
  | some h => h.log
  | none => []

/-- Addresses of a full `1 + W` tagged slot at `addr`: the tag byte and the
`W` bytes of the trailing word. -/
def slotLog (addr : Nat) : List Nat :=
  addr :: (List.range W).map (fun i => addr + 1 + i)

/-- Addresses of the region a Pair encode claims for its direct slot writes,
`addr .. addr + 2·(1+W) − 1`, as an explicit list (used to state that the
child allocations do not disturb the slots). -/
def pairRegion (addr : Nat) : List Nat :=
  (List.range (2 * (1 + W))).map (fun i => addr + i)

/-- A plain zeroed 32-byte buffer, standing in for the `Vec<u8>` byte sink the
repository's own codec tests run against. -/
def bufHeap : Heap := ⟨fun _ => 0, 32, []⟩

/-! ## Basic facts about the byte store and the word codec -/

theorem hWrite_space (h : Heap) (a b x : Nat) :
    (hWrite h a b).space x = if x = a then b else h.space x := rfl

theorem hWrite_log (h : Heap) (a b : Nat) : (hWrite h a b).log = h.log ++ [a] := rfl

theorem usizeWriteAux_space_outside (v addr : Nat) (h : Heap) :
    ∀ j x, x < addr ∨ addr + j ≤ x → (usizeWriteAux v addr h j).space x = h.space x := by
  intro j
  induction j with
  | zero => intro x _; rfl
  | succ k ih =>
    intro x hx
    show (hWrite (usizeWriteAux v addr h k) (addr + k) _).space x = _
    rw [hWrite_space, if_neg (by omega)]
    exact ih x (by omega)

theorem usizeWriteAux_space_at (v addr : Nat) (h : Heap) :
    ∀ j k, k < j → (usizeWriteAux v addr h j).space (addr + k) = (v >>> (k * 8)) &&& 255 := by
  intro j
  induction j with
  | zero => intro k hk; omega
  | succ j ih =>
    intro k hk
    show (hWrite (usizeWriteAux v addr h j) (addr + j) _).space (addr + k) = _
    rw [hWrite_space]
    by_cases hkj : k = j
    · subst hkj; rw [if_pos rfl]
    · rw [if_neg (by omega)]
      exact ih k (by omega)

theorem usizeWriteH_space_outside (v : Nat) (h : Heap) (addr x : Nat)
    (hx : x < addr ∨ addr + W ≤ x) :
    (usizeWriteH v h addr).space x = h.space x :=
  usizeWriteAux_space_outside v addr h W x hx

theorem usizeWriteH_space_at (v : Nat) (h : Heap) (addr k : Nat) (hk : k < W) :
    (usizeWriteH v h addr).space (addr + k) = (v >>> (k * 8)) &&& 255 :=
  usizeWriteAux_space_at v addr h W k hk

theorem byte_and_mod (x : Nat) : x &&& 255 = x % 256 := by
  have h : (255 : Nat) = 2 ^ 8 - 1 := rfl
  rw [h, Nat.and_pow_two_sub_one_eq_mod]

theorem lor_shiftLeft_eq_add (a b n : Nat) (ha : a < 2 ^ n) :
    a ||| (b <<< n) = 2 ^ n * b + a := by
  rw [Nat.lor_comm, Nat.shiftLeft_eq, Nat.mul_comm b (2 ^ n)]
  exact (Nat.mul_add_lt_is_or ha b).symm

theorem usizeReadAux_eq_mod (h : Heap) (addr v : Nat) :
    ∀ j, (∀ k, k < j → h.space (addr + k) = v / 2 ^ (k * 8) % 256) →
      usizeReadAux h addr j = v % 2 ^ (j * 8) := by
  intro j
  induction j with
  | zero => intro _; simp [usizeReadAux, Nat.mod_one]
  | succ j ih =>
    intro hd
    show usizeReadAux h addr j ||| ((hRead h (addr + j)) <<< (j * 8)) = _
    rw [ih (fun k hk => hd k (by omega)), hRead, hd j (by omega),
      lor_shiftLeft_eq_add _ _ _ (Nat.mod_lt _ (Nat.pos_pow_of_pos _ (by omega)))]
    have hpow : (2 : Nat) ^ ((j + 1) * 8) = 2 ^ (j * 8) * 256 := by
      rw [Nat.succ_mul, Nat.pow_add]
    rw [hpow, Nat.mod_mul]
    omega

theorem usizeRead_usizeWrite (h : Heap) (v addr : Nat) (hv : v < 2 ^ (8 * W)) :
    usizeReadH (usizeWriteH v h addr) addr = v := by
  rw [usizeReadH, usizeReadAux_eq_mod (usizeWriteH v h addr) addr v W ?digits]
  · rw [Nat.mod_eq_of_lt]
    rwa [Nat.mul_comm]
  case digits =>
    intro k hk
    rw [usizeWriteH_space_at v h addr k hk, Nat.shiftRight_eq_div_pow, byte_and_mod]

theorem usizeWriteAux_log (v addr : Nat) (h : Heap) :
    ∀ j, (usizeWriteAux v addr h j).log = h.log ++ (List.range j).map (fun i => addr + i) := by
  intro j
  induction j with
  | zero => simp [usizeWriteAux]
  | succ j ih =>
    show (hWrite (usizeWriteAux v addr h j) (addr + j) _).log = _
    rw [hWrite_log, ih, List.range_succ]
    simp

theorem usizeWriteH_log (v : Nat) (h : Heap) (addr : Nat) :
    (usizeWriteH v h addr).log = h.log ++ (List.range W).map (fun i => addr + i) :=
  usizeWriteAux_log v addr h W

/-! ## Claims C9 and C10: the machine-word codec -/

/-- C9 — For every machine word `v` (< 2^(8·W)) and in-range address `a`,
`usize::write` stores `v` as `W` little-endian bytes, byte `i` at `a + i`
being `(v >> 8·i) & 0xFF`, and `usize::read` at `a` recomposes exactly `v`
(the round trip is the identity). -/
theorem c9_word_codec (h : Heap) (v a : Nat) (hv : v < 2 ^ (8 * W)) (_ha : a + W ≤ h.len) :
    (∀ i, i < W → (usizeWriteH v h a).space (a + i) = (v >>> (i * 8)) &&& 255) ∧
    usizeReadH (usizeWriteH v h a) a = v :=
  ⟨fun i hi => usizeWriteH_space_at v h a i hi, usizeRead_usizeWrite h v a hv⟩

/-- Witness for C9, the spec's scenario S7: the word `0x77_66_55_44_33_22_11_00`
written at address 2 of a zeroed buffer lays down the bytes
`[0x00, 0x11, …, 0x77]` at 2..2+W and reads back unchanged. -/
theorem c9_word_codec_witness :
    ((0x7766554433221100 : Nat) < 2 ^ (8 * W) ∧ 2 + W ≤ bufHeap.len) ∧
    usizeReadH (usizeWriteH 0x7766554433221100 bufHeap 2) 2 = 0x7766554433221100 ∧
    (List.range W).map (fun i => (usizeWriteH 0x7766554433221100 bufHeap 2).space (2 + i)) =
      [0x00, 0x11, 0x22, 0x33, 0x44, 0x55, 0x66, 0x77] :=
  ⟨⟨by decide, by decide⟩,
   (c9_word_codec bufHeap 0x7766554433221100 2 (by decide) (by decide)).2,
   by decide⟩

/-- C10 — `usize::write(v, addr)` modifies only the `W` bytes at
`addr .. addr + W − 1`: every byte of the store outside that range keeps its
previous value. -/
theorem c10_word_write_frame (v : Nat) (h : Heap) (a x : Nat)
    (hx : x < a ∨ a + W ≤ x) :
    (usizeWriteH v h a).space x = h.space x :=
  usizeWriteH_space_outside v h a x hx

/-- Witness for C10: byte 1 (just below the write at 2..10) is untouched. -/
theorem c10_word_write_frame_witness :
    ((1 : Nat) < 2 ∨ 2 + W ≤ 1) ∧
    (usizeWriteH 0x7766554433221100 bufHeap 2).space 1 = bufHeap.space 1 :=
  ⟨Or.inl (by decide), c10_word_write_frame 0x7766554433221100 bufHeap 2 1 (Or.inl (by decide))⟩

/-! ## Claim C8: Bool decoding -/

/-- C8 amended — Decoding a payload whose tag byte is `Bool` (2) examines only
the byte at `addr + 1` (the least-significant byte of the trailing word): it
returns `Bool(false)` iff that byte is zero and `Bool(true)` iff that byte is
nonzero.  (The source reads `mem.read(addr + 1)`, a single byte, not the
word.) -/
theorem c8_bool_decode (fuel : Nat) (h : Heap) (a : Nat) (ht : hRead h a = 2) :
    (readObjF (fuel + 1) h a = .ok (.bool false) ↔ hRead h (a + 1) = 0) ∧
    (readObjF (fuel + 1) h a = .ok (.bool true) ↔ hRead h (a + 1) ≠ 0) := by
  have step : readObjF (fuel + 1) h a
      = .ok (.bool (if hRead h (a + 1) = 0 then false else true)) := by
    simp only [readObjF, ht]
    norm_num
  by_cases hb : hRead h (a + 1) = 0 <;> simp [step, hb]

/-- Heap for the C8 witness: tag `Bool` at 0, trailing word `3` (low byte
nonzero). -/
def c8h : Heap := ⟨fun x => if x = 0 then 2 else if x = 1 then 3 else 0, 32, []⟩

/-- Witness for C8: with a nonzero low byte, the decoder yields `Bool(true)`. -/
theorem c8_bool_decode_witness :
    hRead c8h 0 = 2 ∧ readObjF 1 c8h 0 = .ok (.bool true) :=
  ⟨by decide, ((c8_bool_decode 0 c8h 0 (by decide)).2).mpr (by decide)⟩

/-- Heap refuting C8 as stated: tag `Bool` at 0 and trailing word `256`
(bytes `[0, 1, 0, …]`), which is nonzero but has a zero low byte. -/
def ce8h : Heap := ⟨fun x => if x = 0 then 2 else if x = 2 then 1 else 0, 32, []⟩

/-- Counterexample to C8 as stated: the trailing word at address 1 is the
nonzero value 256, yet the decoder returns `Bool(false)` because the byte at
address 1 is zero — contradicting "Bool(true) for every nonzero value of the
word". -/
theorem c8_counterexample :
    usizeReadH ce8h 1 = 256 ∧ (256 : Nat) ≠ 0 ∧ readObjF 1 ce8h 0 = .ok (.bool false) :=
  ⟨by decide, by decide, rfl⟩

/-! ## Claim C5: the claim policy of `alloc_block` -/

/-- C5 amended — When `alloc` claims a free block `B` read at header address
`A`, in a chain whose blocks lie inside the buffer (a non-terminal block's
`next` equals `A + headerSize + B.size` and is below the heap length, and the
terminal block's payload ends exactly at the heap length): if
`B.size ≥ n + headerSize` the block splits, leaving `B` as
`{next = A + headerSize + n, size = n, allocd = true}` and writing the free
residue header `{next = old B.next, size = B.size − n − headerSize,
allocd = false}` at the residue address `A + headerSize + n`; otherwise `B` is
handed out whole, with `size` and `next` unchanged. -/
theorem c5_alloc_block_spec (h : Heap) (A n : Nat) (hdr : Header)
    (_hn : n ≤ hdr.size)
    (hnt : hdr.next ≠ 0 → hdr.next = A + headerSize + hdr.size ∧ hdr.next < h.len)
    (hterm : hdr.next = 0 → A + headerSize + hdr.size = h.len) :
    (n + headerSize ≤ hdr.size →
      allocBlock h hdr n =
        (headerWriteH ⟨hdr.next, hdr.size - n - headerSize, false, false⟩ h
            (A + headerSize + n),
         ⟨A + headerSize + n, n, true, hdr.marked⟩)) ∧
    (hdr.size < n + headerSize →
      allocBlock h hdr n = (h, { hdr with allocd := true })) := by
  have hhs : headerSize = 17 := rfl
  constructor
  · intro hsplit
    have hres : (hdr.next + h.len - (hdr.size - n)) % h.len = A + headerSize + n := by
      by_cases h0 : hdr.next = 0
      · have hcov := hterm h0
        rw [h0]
        have he : 0 + h.len - (hdr.size - n) = A + headerSize + n := by omega
        rw [he, Nat.mod_eq_of_lt (by omega)]
      · obtain ⟨he, hlt⟩ := hnt h0
        have hshift : hdr.next + h.len - (hdr.size - n) = (A + headerSize + n) + h.len := by
          omega
        rw [hshift, Nat.add_mod_right, Nat.mod_eq_of_lt (by omega)]
    rw [allocBlock]
    simp only
    rw [if_pos hsplit, hres]
  · intro hnosplit
    rw [allocBlock]
    simp only
    rw [if_neg (by omega)]

/-- Witness for C5 (split case): the fresh 100-byte heap's single block
`{next = 0, size = 83}` split for `n = 10` leaves `{next = 27, size = 10,
allocd = true}` and writes the residue header at `27 = 0 + headerSize + 10`. -/
theorem c5_alloc_block_spec_witness :
    (10 ≤ (headerRead (freshHeap 100) 0).size ∧
     ((headerRead (freshHeap 100) 0).next = 0 →
        0 + headerSize + (headerRead (freshHeap 100) 0).size = (freshHeap 100).len) ∧
     10 + headerSize ≤ (headerRead (freshHeap 100) 0).size) ∧
    allocBlock (freshHeap 100) (headerRead (freshHeap 100) 0) 10 =
      (headerWriteH ⟨(headerRead (freshHeap 100) 0).next,
          (headerRead (freshHeap 100) 0).size - 10 - headerSize, false, false⟩
        (freshHeap 100) (0 + headerSize + 10),
       ⟨0 + headerSize + 10, 10, true, (headerRead (freshHeap 100) 0).marked⟩) :=
  ⟨⟨by decide, by decide, by decide⟩,
   (c5_alloc_block_spec (freshHeap 100) 0 10 (headerRead (freshHeap 100) 0)
      (by decide) (by decide) (by decide)).1 (by decide)⟩

/-- A terminal free block `{next = 0, size = 50}` at address 0 of a 100-byte
heap: its payload ends at 67, not at the heap end.  It satisfies the
invariant C5 states (vacuously: no non-terminal block), yet refutes the
claimed residue address. -/
def ce5hdr : Header := ⟨0, 50, false, false⟩

/-- Backing heap for the C5 counterexample, holding `ce5hdr` at address 0. -/
def ce5heap : Heap := headerWriteH ce5hdr ⟨fun _ => 0, 100, []⟩ 0

/-- Counterexample to C5 as stated: the block is free with
`size ≥ n + headerSize` and every non-terminal block (there is none) satisfies
the stated invariant, yet splitting for `n = 10` sets `next` (= the residue
address, where the residue header is written) to
`(0 + 100 − 40) % 100 = 60`, not `header_addr + headerSize + n = 27`. -/
theorem c5_counterexample :
    ce5hdr.allocd = false ∧ 10 + headerSize ≤ ce5hdr.size ∧
    (ce5hdr.next ≠ 0 → ce5hdr.next = 0 + headerSize + ce5hdr.size) ∧
    (allocBlock ce5heap ce5hdr 10).2.next = 60 ∧ (60 : Nat) ≠ 0 + headerSize + 10 :=
  ⟨rfl, by decide, by decide, by decide, by decide⟩

/-! ## Claims C3, C4, C6: the sweep phase and allocation failure

The sweep's inner coalescing loop follows `next` with no `next == 0` guard:
once it steps to the sentinel it re-reads the header at address 0 and keeps
walking, so the loop never ends whenever the tail of the chain is unmarked.
The two lemmas below capture the stuck loop for any heap whose block at
address 0 is unmarked with `next = 0` (e.g. any fresh heap with no roots). -/

theorem sweepInner_stuck (h : Heap) (hm : (headerRead h 0).marked = false)
    (hn : (headerRead h 0).next = 0) : ∀ fuel, sweepInner fuel h 0 = none := by
  intro fuel
  induction fuel with
  | zero => rfl
  | succ fuel ih =>
    show (if (headerRead h 0).marked then some 0
          else sweepInner fuel h (headerRead h 0).next) = none
    rw [hm, hn, if_neg (by simp)]
    exact ih

theorem sweep_stuck (h : Heap) (hm : (headerRead h 0).marked = false)
    (hn : (headerRead h 0).next = 0) : ∀ fuel, sweepF fuel h 0 = none := by
  intro fuel
  cases fuel with
  | zero => rfl
  | succ fuel =>
    simp only [sweepF, hm, hn, Bool.false_eq_true, if_false,
      sweepInner_stuck h hm hn (fuel + 1)]

/-- C4 — refuted (the spec's §9 already flags the missing guard): on the fresh
40-byte heap — a well-formed single-block chain (`next = 0`), all blocks
unmarked — the sweep phase does not terminate: for every iteration bound the
fueled sweep fails to finish, because the inner coalescing loop reaches the
sentinel `0` and cycles instead of stopping. -/
theorem c4_sweep_diverges : ∀ fuel, sweepF fuel (freshHeap 40) 0 = none :=
  sweep_stuck (freshHeap 40) (by decide) (by decide)

/-- Chain used to exhibit C3: three blocks covering a 100-byte heap —
`{0: next 27, size 10, allocd, unmarked}`, `{27: next 54, size 10, allocd,
unmarked}`, `{54: next 0, size 29, allocd, marked}`.  The first two are
garbage; the marked tail lets the sweep terminate. -/
def c3heap : Heap :=
  headerWriteH ⟨0, 29, true, true⟩
    (headerWriteH ⟨54, 10, true, false⟩
      (headerWriteH ⟨27, 10, true, false⟩ ⟨fun _ => 0, 100, []⟩ 0) 27) 54

/-- C3 — refuted (the spec's §9 already flags it): before the sweep the chain
covers the heap (`Σ (headerSize + size) = 100`); the sweep coalesces the
block at 0 with its unmarked neighbor at 27 (its `next` becomes 54) but
leaves its `size` at 10 instead of expanding it to `10 + headerSize + 10`,
so afterwards the chain sums to 73 ≠ 100. -/
theorem c3_sweep_size_not_updated :
    chainSum 10 c3heap 0 = 100 ∧
    (sweepF 10 c3heap 0).map (fun h => headerRead h 0) = some ⟨54, 10, false, false⟩ ∧
    (sweepF 10 c3heap 0).map (fun h => chainSum 10 h 0) = some 73 ∧
    (73 : Nat) ≠ 100 :=
  ⟨by decide, by decide, by decide, by decide⟩

theorem collect_fresh40 : ∀ fuel, collectF fuel [] (freshHeap 40) = none := by
  intro fuel
  cases fuel with
  | zero => rfl
  | succ fuel =>
    show sweepF (fuel + 1) (freshHeap 40) 0 = none
    exact sweep_stuck (freshHeap 40) (by decide) (by decide) (fuel + 1)

/-- C6 — refuted (a consequence of the sweep bug §9 flags): requesting 30
bytes from the fresh 40-byte heap (whose single free block holds only 23)
with an empty root set makes `alloc_bytes` invoke the collector, whose sweep
never terminates; for every iteration bound the fueled allocator fails to
finish, so `alloc` neither returns a payload address nor fails with
OutOfMemory. -/
theorem c6_alloc_diverges : ∀ fuel, allocBytesF [] fuel (freshHeap 40) 30 0 true = none := by
  intro fuel
  cases fuel with
  | zero => rfl
  | succ fuel =>
    show (match collectF fuel [] (freshHeap 40) with
          | none => none
          | some h2 => allocBytesF [] fuel h2 30 0 false) = none
    rw [collect_fresh40 fuel]

/-! ## Claim C1: the encode/decode round trip -/

/-- The spec's S5 value: `Pair(Number(7), Pair(Bool(true), Nil))`. -/
def s5obj : SchemeObj := .pair (.number 7) (.pair (.bool true) .nil)

/-- The mutator-visible store operation: `heap.alloc(obj)` followed by
`obj.write(heap, addr)` at the returned payload address (`Heap::alloc` only
reserves the bytes; the caller performs the write).  Returns the final heap
and the payload address. -/
def allocAndWrite (fuel : Nat) (roots : List Nat) (hsize : Nat) (obj : SchemeObj) :
    Option (Heap × Nat) :=
  match allocObjF fuel roots (freshHeap hsize) obj with
  | some (h, a) =>
    match writeObjF fuel roots obj h a with
    | some h2 => some (h2, a)
    | none => none
  | none => none

/-- C1 — refuted on the claim's own example: encoding
`Pair(Number(7), Pair(Bool(true), Nil))` into a fresh 200-byte heap at the
payload address 17 returned by `alloc` and then decoding at 17 does not
return the value — it aborts with the `Tag::from` panic on byte 53 at
address 19.  (The reader's `Box::read` interprets the bytes of the stored
child *address* — whose low byte is 53, the first child block's payload
address — as an object instead of dereferencing it; `alloc` also never wrote
the child objects' bytes, and the writer's cdr slot is one byte before where
the reader looks.) -/
theorem c1_decode_encode_fails :
    (allocAndWrite 30 [] 200 s5obj).map (fun p => (p.2, readObjF 30 p.1 p.2))
      = some (17, .error (.unknownTag 53 19)) := rfl

/-! ## Claims C2 and C7: what a Pair encode writes, and where

For these two claims the two child allocations inside the Pair encode are
abstracted by hypotheses giving their results `(hA, a1)` and `(hB, a2)`; for
C2 two further hypotheses state that those allocations do not write into the
Pair's own slot region (true of any well-formed chain, and discharged by
computation in the witnesses). -/

theorem mem_pairRegion (addr i : Nat) (hi : i < 2 * (1 + W)) :
    addr + i ∈ pairRegion addr :=
  List.mem_map.mpr ⟨i, List.mem_range.mpr hi, rfl⟩

/-- C2 amended — Encoding a Pair at address `a` writes the Pair tag at `a`
and two `1+W`-byte child slots at `a + 1` and `a + 1 + W` (one byte earlier
than the claimed `a + 1 + (1+W)`, overlapping the car slot's last byte);
*every* child — primitive or Pair alike — is written as a `Box` slot: tag 0
followed by the payload address of a separately allocated block (whose
contents the allocation itself does not write).  Under the hypotheses that
the two child allocations return `(hA, a1)` and `(hB, a2)` and leave the slot
region untouched, the final bytes are: tag 5 at `a`, Box tag 0 at `a + 1`
and at `a + 1 + W`, the word `a1` readable at `a + 2` (its top byte having
been overwritten by the cdr's Box tag, whence the `a1 < 2^(8·(W−1))` bound),
and the word `a2` readable at `a + 2 + W`. -/
theorem c2_box_children (fuel : Nat) (roots : List Nat) (h hA hB : Heap)
    (addr a1 a2 : Nat) (car cdr : SchemeObj)
    (h1 : allocObjF fuel roots (hWrite (hWrite h addr 5) (addr + 1) 0) car = some (hA, a1))
    (h2 : allocObjF fuel roots (hWrite (usizeWriteH a1 hA (addr + 1 + 1)) (addr + 1 + W) 0) cdr
        = some (hB, a2))
    (hFrA : ∀ x ∈ pairRegion addr,
        hA.space x = (hWrite (hWrite h addr 5) (addr + 1) 0).space x)
    (hFrB : ∀ x ∈ pairRegion addr,
        hB.space x = (hWrite (usizeWriteH a1 hA (addr + 1 + 1)) (addr + 1 + W) 0).space x)
    (ha1 : a1 < 2 ^ (8 * (W - 1)))
    (ha2 : a2 < 2 ^ (8 * W)) :
    writeObjF fuel roots (.pair car cdr) h addr
      = some (usizeWriteH a2 hB (addr + 1 + W + 1)) ∧
    (usizeWriteH a2 hB (addr + 1 + W + 1)).space addr = 5 ∧
    (usizeWriteH a2 hB (addr + 1 + W + 1)).space (addr + 1) = 0 ∧
    (usizeWriteH a2 hB (addr + 1 + W + 1)).space (addr + 1 + W) = 0 ∧
    usizeReadH (usizeWriteH a2 hB (addr + 1 + W + 1)) (addr + 1 + 1) = a1 ∧
    usizeReadH (usizeWriteH a2 hB (addr + 1 + W + 1)) (addr + 1 + W + 1) = a2 := by
  have hW : W = 8 := rfl
  have hrun : writeObjF fuel roots (.pair car cdr) h addr
      = some (usizeWriteH a2 hB (addr + 1 + W + 1)) := by
    simp only [writeObjF, writeBoxF, h1, h2]
  -- byte values in the slot region, seen through the frame hypotheses
  have hBbyte : ∀ i, i < 2 * (1 + W) → i ≠ addr + 1 + W - addr →
      hB.space (addr + i) = (usizeWriteH a1 hA (addr + 1 + 1)).space (addr + i) := by
    intro i hi hne
    rw [hFrB (addr + i) (mem_pairRegion addr i hi), hWrite_space, if_neg (by omega)]
  refine ⟨hrun, ?_, ?_, ?_, ?_, ?_⟩
  · rw [usizeWriteH_space_outside _ _ _ _ (by omega)]
    have := hBbyte 0 (by omega) (by omega)
    rw [Nat.add_zero] at this
    rw [this, usizeWriteH_space_outside _ _ _ _ (by omega),
      hFrA addr (by simpa using mem_pairRegion addr 0 (by omega)),
      hWrite_space, if_neg (by omega), hWrite_space, if_pos rfl]
  · rw [usizeWriteH_space_outside _ _ _ _ (by omega)]
    rw [hBbyte 1 (by omega) (by omega),
      usizeWriteH_space_outside _ _ _ _ (by omega),
      hFrA (addr + 1) (mem_pairRegion addr 1 (by omega)),
      hWrite_space, if_pos rfl]
  · rw [usizeWriteH_space_outside _ _ _ _ (by omega),
      hFrB (addr + 1 + W) (by simpa [Nat.add_assoc] using mem_pairRegion addr (1 + W) (by omega)),
      hWrite_space, if_pos rfl]
  · -- the car word reads back as a1: low W−1 bytes from the a1 write, top byte 0
    rw [usizeReadH, usizeReadAux_eq_mod _ _ a1 W ?digits]
    · rw [Nat.mod_eq_of_lt]
      calc a1 < 2 ^ (8 * (W - 1)) := ha1
        _ ≤ 2 ^ (W * 8) := Nat.pow_le_pow_right (by omega) (by omega)
    case digits =>
      intro k hk
      have hout : addr + 1 + 1 + k < addr + 1 + W + 1 := by omega
      rw [usizeWriteH_space_outside _ _ _ _ (Or.inl hout)]
      by_cases hk7 : k = W - 1
      · subst hk7
        have he : addr + 1 + 1 + (W - 1) = addr + (1 + W) := by omega
        rw [he, hFrB (addr + (1 + W)) (mem_pairRegion addr (1 + W) (by omega)),
          hWrite_space, if_pos (by omega)]
        rw [Nat.div_eq_of_lt (by simpa [hW] using ha1)]
      · have he : addr + 1 + 1 + k = addr + (2 + k) := by omega
        rw [he]
        have := hBbyte (2 + k) (by omega) (by omega)
        rw [this]
        have he2 : addr + (2 + k) = addr + 1 + 1 + k := by omega
        rw [he2, usizeWriteH_space_at _ _ _ _ (by omega),
          Nat.shiftRight_eq_div_pow, byte_and_mod]
  · exact usizeRead_usizeWrite hB a2 (addr + 1 + W + 1) ha2

/-! Concrete run used by the C2 and C7 witnesses: a fresh 200-byte heap after
reserving the 19 bytes of a top-level pair (payload address 17), into which
`Pair(Nil, Nil)` is encoded; the two child allocations return payload
addresses 53 and 79. -/

/-- Heap state after `alloc_bytes(19)` on a fresh 200-byte heap. -/
def w7base : Heap :=
  ((allocBytesF [] 30 (freshHeap 200) 19 0 true).getD (freshHeap 200, none)).1

/-- State passed to the car's child allocation: Pair tag at 17, Box tag at 18. -/
def w7s1 : Heap := hWrite (hWrite w7base 17 5) (17 + 1) 0

/-- Result heap of the car's child allocation (payload address 53). -/
def w7hA : Heap := ((allocObjF 30 [] w7s1 SchemeObj.nil).getD (w7s1, 0)).1

/-- State passed to the cdr's child allocation: car word written at 19..26,
Box tag at 26 (= 17 + 1 + W). -/
def w7s3 : Heap := hWrite (usizeWriteH 53 w7hA (17 + 1 + 1)) (17 + 1 + W) 0

/-- Result heap of the cdr's child allocation (payload address 79). -/
def w7hB : Heap := ((allocObjF 30 [] w7s3 SchemeObj.nil).getD (w7s3, 0)).1

/-- Witness for C2 at the concrete run: the hypotheses hold by computation,
and the conclusion yields the Box tag at 18 and the stored child addresses
53 and 79. -/
theorem c2_box_children_witness :
    writeObjF 30 [] (SchemeObj.pair SchemeObj.nil SchemeObj.nil) w7base 17
      = some (usizeWriteH 79 w7hB (17 + 1 + W + 1)) ∧
    (usizeWriteH 79 w7hB (17 + 1 + W + 1)).space (17 + 1) = 0 ∧
    usizeReadH (usizeWriteH 79 w7hB (17 + 1 + W + 1)) (17 + 1 + 1) = 53 ∧
    usizeReadH (usizeWriteH 79 w7hB (17 + 1 + W + 1)) (17 + 1 + W + 1) = 79 := by
  have main := c2_box_children 30 [] w7base w7hA w7hB 17 53 79 SchemeObj.nil SchemeObj.nil
    rfl rfl (by decide) (by decide) (by decide) (by decide)
  exact ⟨main.1, main.2.2.1, main.2.2.2.2.1, main.2.2.2.2.2⟩

/-- Counterexample to C2 as stated: the car child is the primitive `Nil`, yet
the byte written at its inline slot 18 is the Box tag 0, not `Nil`'s tag 1 —
the primitive child is not "written inline into its slot". -/
theorem c2_counterexample :
    (writeObjF 30 [] (SchemeObj.pair SchemeObj.nil SchemeObj.nil) w7base 17).map
        (fun h2 => h2.space (17 + 1)) = some 0 ∧
    (writeObjF 30 [] (SchemeObj.pair SchemeObj.nil SchemeObj.nil) w7base 17).map
        (fun h2 => h2.space (17 + 1)) ≠ some 1 :=
  ⟨by decide, by decide⟩

/-- C7 amended — The bytes written by `encode(v)` at address `a` (read off
the ghost write log) are: for `Bool`/`Number`/`Symbol`, exactly the `1 + W`
bytes `a .. a + W`; for `Nil`, only the tag byte `a` (the rest of its nominal
`1 + W` size is unwritten padding); for `Pair`, the slot bytes
`a, a+1`, then the car allocation's own writes, the car word `a+2 .. a+1+W`,
the cdr Box tag at `a + 1 + W` (one byte short of the nominal `1 + 2·(1+W)`
region, which is never filled to its last byte), then the cdr allocation's
writes and the cdr word at `a+2+W .. a+1+2W` — so the total is not the
`v.size()` bytes `a .. a + v.size() − 1` claimed. -/
theorem c7_write_footprint (fuel : Nat) (roots : List Nat) (h hA hB : Heap)
    (addr a1 a2 : Nat) (b : Bool) (num : Int) (sym : Nat) (car cdr : SchemeObj)
    (h1 : allocObjF fuel roots (hWrite (hWrite h addr 5) (addr + 1) 0) car = some (hA, a1))
    (h2 : allocObjF fuel roots (hWrite (usizeWriteH a1 hA (addr + 1 + 1)) (addr + 1 + W) 0) cdr
        = some (hB, a2)) :
    (writeObjF fuel roots .nil h addr).map Heap.log = some (h.log ++ [addr]) ∧
    (writeObjF fuel roots (.bool b) h addr).map Heap.log = some (h.log ++ slotLog addr) ∧
    (writeObjF fuel roots (.number num) h addr).map Heap.log = some (h.log ++ slotLog addr) ∧
    (writeObjF fuel roots (.symbol sym) h addr).map Heap.log = some (h.log ++ slotLog addr) ∧
    (writeObjF fuel roots (.pair car cdr) h addr).map Heap.log
      = some (hB.log ++ (List.range W).map (fun i => addr + 1 + W + 1 + i)) ∧
    (hWrite (hWrite h addr 5) (addr + 1) 0).log = h.log ++ [addr, addr + 1] ∧
    (hWrite (usizeWriteH a1 hA (addr + 1 + 1)) (addr + 1 + W) 0).log
      = hA.log ++ (List.range W).map (fun i => addr + 1 + 1 + i) ++ [addr + 1 + W] := by
  refine ⟨?_, ?_, ?_, ?_, ?_, ?_, ?_⟩
  · simp [writeObjF, hWrite_log]
  · simp [writeObjF, usizeWriteH_log, hWrite_log, slotLog, List.append_assoc]
  · simp [writeObjF, usizeWriteH_log, hWrite_log, slotLog, List.append_assoc]
  · simp [writeObjF, usizeWriteH_log, hWrite_log, slotLog, List.append_assoc]
  · simp only [writeObjF, writeBoxF, h1, h2]
    show some (usizeWriteH a2 hB (addr + 1 + W + 1)).log = _
    rw [usizeWriteH_log]
  · simp [hWrite_log, List.append_assoc]
  · simp [hWrite_log, usizeWriteH_log, List.append_assoc]

/-- Witness for C7 at the concrete `Pair(Nil, Nil)` run: `Nil` logs the
single byte 17, while the pair logs the cdr word region after the second
child allocation's log. -/
theorem c7_write_footprint_witness :
    (writeObjF 30 [] SchemeObj.nil w7base 17).map Heap.log = some (w7base.log ++ [17]) ∧
    (writeObjF 30 [] (SchemeObj.pair SchemeObj.nil SchemeObj.nil) w7base 17).map Heap.log
      = some (w7hB.log ++ (List.range W).map (fun i => 17 + 1 + W + 1 + i)) := by
  have main := c7_write_footprint 30 [] w7base w7hA w7hB 17 53 79 true 0 0
    SchemeObj.nil SchemeObj.nil rfl rfl
  exact ⟨main.1, main.2.2.2.2.1⟩

/-- Counterexample to C7 as stated: encoding `Nil` at address 20 writes only
the tag byte 20 — not all `size() = 1 + W` bytes `20 .. 28` claimed (byte 21,
for instance, is never written). -/
theorem c7_counterexample :
    ¬ ∀ i ∈ List.range (SchemeObj.size SchemeObj.nil),
        (20 + i) ∈ writeLogOf (writeObjF 5 [] SchemeObj.nil bufHeap 20) := by
  decide

end LScheme
